import Mathlib

/-
  A verification development for the c-fsm library (src/fsm.h and
  src/examples/basic.c): a single-header finite-state-machine engine in C.

  The header declares the engine API and provides the macros and the inline
  accessors, but the `FSM_IMPL` implementation block in src/fsm.h is empty, so
  the bodies of fsm_create / fsm_run / fsm_stop / fsm_set_state /
  fsm_add_state / fsm_add_transition / fsm_add_transition_from_all /
  __fsm_state_index are modelled here from the specification (spec.md).
  Everything present in the header itself (the struct shapes, the
  FSM_PREDICATE_GROUP and FSM_CREATE macros, the four inline accessors) is
  embedded directly from that source.

  Conventions of the embedding:
  - the caller-supplied context is a type parameter `C`; a C callback
    `void (*)(fsm_t *, void *)` that mutates the context becomes a pure
    function `C → C`, and a predicate becomes `C → Bool`;
  - every callback or predicate invocation performed by the engine is
    recorded in a trace of `FsmEvent`s, so "invokes no callback" is the
    statement that the trace is empty;
  - `fsm_size_t` indices are `Nat`; the C convention of returning
    `(fsm_size_t)(-1)` for "not found" is modelled as `Option Nat`;
  - array reads are modelled with `List.get?`, so an out-of-bounds C read
    shows up as `none` rather than undefined behaviour.
-/

set_option autoImplicit false

/-- The error kinds of the specification (spec.md section 7). -/
inductive FsmError where
  | DuplicateState
  | UnknownState
  | NotInitialized
  | AllocationFailure
  deriving DecidableEq

/-- Modelled from the spec: the lifecycle of the engine itself
(spec.md section 4.3). `uninitialized` is "no current state set";
`ready` is "current state set, the next tick is the first tick since the
current state became active"; `stopped` is the state after `stop()`, in
which `run()` is a no-op (spec.md section 8, stop semantics).
The C struct stores only `__is_running`; the spec's finer distinction
between never-initialized, not-yet-started and stopped is modelled
explicitly so that `run()` can fail fast with `NotInitialized` and be a
no-op after `stop()`, as the spec requires. -/
inductive FsmStatus where
  | uninitialized
  | ready
  | running
  | stopped
  deriving DecidableEq

/-- Trace of the caller-visible invocations the engine performs during a
tick: state lifecycle callbacks (with the state's name) and transition
predicate evaluations (with the returned truth value). -/
inductive FsmEvent where
  | enter (name : String)
  | update (name : String)
  | exit (name : String)
  | pred (result : Bool)
  deriving DecidableEq

/-- From src/fsm.h (struct fsm_state): a named state with its three
lifecycle callbacks. -/
structure fsm_state_t (C : Type) where
  name : String
  on_enter : C → C
  on_update : C → C
  on_exit : C → C

/-- From src/fsm.h (struct fsm_predicate_group): an ordered list of
transition predicates together with the stored `predicate_count`. -/
structure fsm_predicate_group_t (C : Type) where
  predicates : List (C → Bool)
  predicate_count : Nat

/-- From src/fsm.h (struct __fsm_transition): a directed edge between two
registered states guarded by a predicate group. The C struct stores
`fsm_state_t *from` / `fsm_state_t *to`; the spec (section 3) says a
transition stores an engine-internal identity such as an index, which is
how the endpoints are modelled here. -/
structure __fsm_transition_t (C : Type) where
  from_idx : Nat
  to_idx : Nat
  predicates : fsm_predicate_group_t C

/-- From src/fsm.h (struct fsm): the engine. The allocator function
pointers are not modelled (allocation always succeeds in the embedding);
`__state_count` and `__transition_count` are represented by the lengths of
the two lists; `__is_running` together with the spec's "current state
unset / set" distinction is modelled by `status` (see `FsmStatus`). -/
structure fsm_t (C : Type) where
  context : C
  states : List (fsm_state_t C)
  transitions : List (__fsm_transition_t C)
  __context_size : Nat
  __current_state_idx : Nat
  status : FsmStatus

/-- Modelled from the spec: `create` binds the borrowed context, records the
context size, zero-initializes the registries and the current-state index,
and leaves the engine not running with the current state unset
(spec.md section 4.4). -/
def fsm_create {C : Type} (context : C) (context_size : Nat) : fsm_t C :=
  { context := context
    states := []
    transitions := []
    __context_size := context_size
    __current_state_idx := 0
    status := FsmStatus.uninitialized }

/-- Modelled from the spec: the O(n) linear scan of the state registry by
name (`find_state`, spec.md section 4.1). The C declaration
`__fsm_state_index` returns `(fsm_size_t)(-1)` when the name is absent,
modelled as `none`. -/
def stateIndexAux {C : Type} (name : String) : List (fsm_state_t C) → Option Nat
  | [] => none
  | s :: rest =>
    if s.name = name then some 0 else (stateIndexAux name rest).map (· + 1)

/-- Modelled from the spec: resolve a state name to its registry index. -/
def __fsm_state_index {C : Type} (f : fsm_t C) (name : String) : Option Nat :=
  stateIndexAux name f.states

/-- Modelled from the spec: `add_state` performs a duplicate-name scan; on a
duplicate it fails with `DuplicateState` and leaves the registry unchanged,
otherwise it appends a value copy of the state (spec.md section 4.1). -/
def fsm_add_state {C : Type} (f : fsm_t C) (state : fsm_state_t C) :
    fsm_t C × Option FsmError :=
  match __fsm_state_index f state.name with
  | some _ => (f, some FsmError.DuplicateState)
  | none => ({ f with states := f.states ++ [state] }, none)

/-- Modelled from the spec: `add_transition` resolves both names through the
state registry, fails with `UnknownState` if either is absent, and otherwise
appends a transition holding a copy of the predicate group
(spec.md section 4.2). -/
def fsm_add_transition {C : Type} (f : fsm_t C) (a b : String)
    (predicates : fsm_predicate_group_t C) : fsm_t C × Option FsmError :=
  match __fsm_state_index f a, __fsm_state_index f b with
  | some i, some j =>
      ({ f with transitions := f.transitions ++ [⟨i, j, predicates⟩] }, none)
  | _, _ => (f, some FsmError.UnknownState)

/-- Modelled from the spec: the loop of `add_transition_from_all` over the
state registry at call time. `wireFromAll n j g` is the list of transitions
`i → j` for every state index `i < n` except `j` itself (no self-loop), in
registration order, each holding its own copy of the group
(spec.md section 4.2). -/
def wireFromAll {C : Type} (j : Nat) (g : fsm_predicate_group_t C) :
    Nat → List (__fsm_transition_t C)
  | 0 => []
  | n + 1 => wireFromAll j g n ++ (if n = j then [] else [⟨n, j, g⟩])

/-- Modelled from the spec: `add_transition_from_all` resolves the target
name (failing with `UnknownState` if absent) and wires every state
registered so far, other than the target itself, to the target — a snapshot
over the registry at call time (spec.md section 4.2). -/
def fsm_add_transition_from_all {C : Type} (f : fsm_t C) (b : String)
    (predicates : fsm_predicate_group_t C) : fsm_t C × Option FsmError :=
  match __fsm_state_index f b with
  | none => (f, some FsmError.UnknownState)
  | some j =>
      ({ f with transitions := f.transitions ++ wireFromAll j predicates f.states.length },
       none)

/-- Modelled from the spec: `set_state` resolves the name (failing with
`UnknownState` if absent) and sets the current state directly, without
invoking enter/exit callbacks; on the first success it moves the engine out
of `uninitialized`, so that the next tick is the first tick of the newly
active state (spec.md section 4.3). -/
def fsm_set_state {C : Type} (f : fsm_t C) (state_name : String) :
    fsm_t C × Option FsmError :=
  match __fsm_state_index f state_name with
  | none => (f, some FsmError.UnknownState)
  | some i =>
      ({ f with
          __current_state_idx := i
          status := if f.status = FsmStatus.uninitialized then FsmStatus.ready else f.status },
       none)

/-- Modelled from the spec: `stop` clears the running flag; a stopped engine
ignores subsequent ticks (spec.md sections 4.3 and 8). Stopping an engine
whose state was never set leaves it uninitialized, so that `run()` still
fails fast with `NotInitialized` rather than silently doing nothing. -/
def fsm_stop {C : Type} (f : fsm_t C) : fsm_t C :=
  match f.status with
  | FsmStatus.uninitialized => f
  | _ => { f with status := FsmStatus.stopped }

/-- Modelled from the spec: a predicate group is satisfied iff every
predicate in its list returns true — logical AND with short-circuit on the
first false (spec.md sections 2 and 9). Returns the verdict together with
the trace of the predicate invocations actually performed. -/
def evalPredicates {C : Type} (ctx : C) : List (C → Bool) → Bool × List FsmEvent
  | [] => (true, [])
  | p :: rest =>
    if p ctx then
      let r := evalPredicates ctx rest
      (r.1, FsmEvent.pred true :: r.2)
    else (false, [FsmEvent.pred false])

/-- Reads `states[j].on_enter` and applies it; an out-of-bounds index leaves
the context unchanged (unreachable through the API). -/
def enterAt {C : Type} (states : List (fsm_state_t C)) (j : Nat) (ctx : C) : C :=
  match states.get? j with
  | some s => s.on_enter ctx
  | none => ctx

/-- Reads `states[j].on_exit` and applies it. -/
def exitAt {C : Type} (states : List (fsm_state_t C)) (j : Nat) (ctx : C) : C :=
  match states.get? j with
  | some s => s.on_exit ctx
  | none => ctx

/-- The name stored at `states[j]`, or `""` out of bounds. -/
def nameAt {C : Type} (states : List (fsm_state_t C)) (j : Nat) : String :=
  ((states.get? j).map (fun s => s.name)).getD ""

/-- Modelled from the spec: the transition-evaluation loop of one tick.
Transitions are scanned in registration order; those whose from-state is not
the current state are skipped without evaluating their predicates; the first
transition whose group is satisfied fires — `on_exit` of the old state, move
to the target state, `on_enter` of the new state — and the scan stops
(spec.md section 4.3, step 3). Returns the new current-state index, the new
context, and the trace of invocations. -/
def scanTransitions {C : Type} (states : List (fsm_state_t C)) (i : Nat) (ctx : C) :
    List (__fsm_transition_t C) → Nat × C × List FsmEvent
  | [] => (i, ctx, [])
  | t :: rest =>
    if t.from_idx = i then
      let pr := evalPredicates ctx t.predicates.predicates
      if pr.1 then
        (t.to_idx, enterAt states t.to_idx (exitAt states i ctx),
          pr.2 ++
            (match states.get? i with
             | some s => [FsmEvent.exit s.name]
             | none => []) ++
            (match states.get? t.to_idx with
             | some s => [FsmEvent.enter s.name]
             | none => []))
      else
        let r := scanTransitions states i ctx rest
        (r.1, r.2.1, pr.2 ++ r.2.2)
    else scanTransitions states i ctx rest

/-- Modelled from the spec: the body of one tick for an initialized engine.
If this is the first tick since the current state became active
(`firstTick`), invoke `on_enter`; then invoke `on_update`; then run the
transition scan (spec.md section 4.3). -/
def runTick {C : Type} (f : fsm_t C) (firstTick : Bool) :
    Except FsmError (fsm_t C × List FsmEvent) :=
  match f.states.get? f.__current_state_idx with
  | none => Except.error FsmError.NotInitialized
  | some s =>
    let ctx0 := if firstTick then s.on_enter f.context else f.context
    let enterEvs : List FsmEvent := if firstTick then [FsmEvent.enter s.name] else []
    let ctx1 := s.on_update ctx0
    let r := scanTransitions f.states f.__current_state_idx ctx1 f.transitions
    Except.ok
      ({ f with
          context := r.2.1
          __current_state_idx := r.1
          status := FsmStatus.running },
       enterEvs ++ FsmEvent.update s.name :: r.2.2)

/-- Modelled from the spec: `run` — one tick. Before `set_state` it fails
fast with `NotInitialized` and touches nothing; after `stop` it is a no-op;
otherwise it performs one tick, invoking `on_enter` first exactly when the
current state became active since the last tick (spec.md sections 4.3 and 8).
Returns the engine after the tick and the trace of invocations. -/
def fsm_run {C : Type} (f : fsm_t C) : Except FsmError (fsm_t C × List FsmEvent) :=
  match f.status with
  | FsmStatus.uninitialized => Except.error FsmError.NotInitialized
  | FsmStatus.stopped => Except.ok (f, [])
  | FsmStatus.ready => runTick f true
  | FsmStatus.running => runTick f false

/-- From src/fsm.h line 197: `fsm_state_count` returns the stored state
count, which the embedding represents as the registry length. -/
def fsm_state_count {C : Type} (f : fsm_t C) : Nat := f.states.length

/-- From src/fsm.h line 201: `fsm_transition_count` returns the stored
transition count. -/
def fsm_transition_count {C : Type} (f : fsm_t C) : Nat := f.transitions.length

/-- From src/fsm.h line 205: `fsm_current_state` returns
`fsm->states[fsm->__current_state_idx].name`. The read of the states array
is modelled with `List.get?`: a `none` result is exactly the case in which
the C code indexes outside the states array. -/
def fsm_current_state {C : Type} (f : fsm_t C) : Option String :=
  (f.states.get? f.__current_state_idx).map (fun s => s.name)

/-- From src/fsm.h line 209: `fsm_is_running` returns the running flag. -/
def fsm_is_running {C : Type} (f : fsm_t C) : Bool :=
  f.status = FsmStatus.running

/-- From src/fsm.h lines 91-95: the FSM_PREDICATE_GROUP macro builds a
compound literal whose `predicates` array holds the argument functions in
argument order and whose `predicate_count` is computed as
`sizeof((fsm_transition_predicate_fn[]){...}) / sizeof(fsm_transition_predicate_fn)`.
`ptrSize` models `sizeof(fsm_transition_predicate_fn)` (a function pointer,
so positive); the array of N functions has size `N * ptrSize`. -/
def FSM_PREDICATE_GROUP {C : Type} (ptrSize : Nat) (fns : List (C → Bool)) :
    fsm_predicate_group_t C :=
  { predicates := fns
    predicate_count := fns.length * ptrSize / ptrSize }

/-- A C argument expression of pointer type, as handed to the FSM_CREATE
macro in the documented usage (src/examples/basic.c line 43 passes
`&context`): the value it denotes, the size of the pointer expression
itself, and the size of the struct it points to. -/
structure CPtrArg (C : Type) where
  val : C
  ptrSize : Nat
  pointeeSize : Nat

/-- From src/fsm.h line 212: `FSM_CREATE(context)` expands to
`fsm_create(malloc, free, context, sizeof(context))` — `sizeof` applies to
the macro argument expression itself, so a pointer argument contributes the
pointer's size. -/
def FSM_CREATE {C : Type} (a : CPtrArg C) : fsm_t C :=
  fsm_create a.val a.ptrSize

/-- One call of the engine's mutating API, for reasoning about arbitrary
call sequences. -/
inductive FsmOp (C : Type) where
  | addState (s : fsm_state_t C)
  | addTransition (a b : String) (g : fsm_predicate_group_t C)
  | addTransitionFromAll (b : String) (g : fsm_predicate_group_t C)
  | setState (n : String)
  | stop
  | run

/-- Apply one API call to an engine (keeping the engine an error leaves
behind). -/
def applyOp {C : Type} (f : fsm_t C) : FsmOp C → fsm_t C
  | FsmOp.addState s => (fsm_add_state f s).1
  | FsmOp.addTransition a b g => (fsm_add_transition f a b g).1
  | FsmOp.addTransitionFromAll b g => (fsm_add_transition_from_all f b g).1
  | FsmOp.setState n => (fsm_set_state f n).1
  | FsmOp.stop => fsm_stop f
  | FsmOp.run =>
      match fsm_run f with
      | Except.ok r => r.1
      | Except.error _ => f

/-- Apply a sequence of API calls in order. -/
def applyOps {C : Type} (f : fsm_t C) : List (FsmOp C) → fsm_t C
  | [] => f
  | op :: ops => applyOps (applyOp f op) ops

/-- A call sequence that never calls `set_state`. -/
def SetStateFree {C : Type} (ops : List (FsmOp C)) : Prop :=
  ∀ n, FsmOp.setState n ∉ ops

/-- Iterate `run` and keep only the engine (the caller's polling loop of
src/examples/basic.c lines 63-71). -/
def runN {C : Type} : Nat → fsm_t C → fsm_t C
  | 0, f => f
  | n + 1, f =>
      runN n
        (match fsm_run f with
         | Except.ok r => r.1
         | Except.error _ => f)

/-- Iterate `run` and collect the whole invocation trace. -/
def runTraceN {C : Type} : Nat → fsm_t C → fsm_t C × List FsmEvent
  | 0, f => (f, [])
  | n + 1, f =>
      match fsm_run f with
      | Except.ok r =>
          let rest := runTraceN n r.1
          (rest.1, r.2 ++ rest.2)
      | Except.error _ => runTraceN n f

/-- Specification shorthand (spec.md section 2): a predicate group is
satisfied iff every predicate in its list holds. -/
def groupHolds {C : Type} (ctx : C) (g : fsm_predicate_group_t C) : Bool :=
  g.predicates.all (fun p => p ctx)

/-- Specification shorthand (spec.md section 4.3, step 3): the first
transition, in registration order, whose from-state is `i` and whose
predicate group is satisfied. -/
def firstFiring {C : Type} (ts : List (__fsm_transition_t C)) (i : Nat) (ctx : C) :
    Option (__fsm_transition_t C) :=
  ts.find? (fun t => t.from_idx == i && groupHolds ctx t.predicates)

/-- The state-lifecycle part of a trace: the trace with the predicate
evaluations dropped. -/
def callbackEvents (evs : List FsmEvent) : List FsmEvent :=
  evs.filter fun e =>
    match e with
    | FsmEvent.pred _ => false
    | _ => true

/-- Reads `states[j].on_update` and applies it. -/
def updateAt {C : Type} (states : List (fsm_state_t C)) (j : Nat) (ctx : C) : C :=
  match states.get? j with
  | some s => s.on_update ctx
  | none => ctx

/-- Specification shorthand: the context right after the optional first-tick
`on_enter` of the current state. -/
def preTickCtx {C : Type} (f : fsm_t C) : C :=
  if f.status = FsmStatus.ready then enterAt f.states f.__current_state_idx f.context
  else f.context

/-- Specification shorthand: the context against which this tick's
transitions are evaluated — after the optional `on_enter` and the
`on_update` of the current state. -/
def tickCtx {C : Type} (f : fsm_t C) : C :=
  updateAt f.states f.__current_state_idx (preTickCtx f)

/-- Specification shorthand: the first-tick `on_enter` event, when due. -/
def enterEvents {C : Type} (f : fsm_t C) : List FsmEvent :=
  if f.status = FsmStatus.ready then
    [FsmEvent.enter (nameAt f.states f.__current_state_idx)]
  else []

/-- Specification shorthand: the transition that fires on this tick, if
any — the first registered transition out of the current state whose group
holds on the post-update context. -/
def firedTransition {C : Type} (f : fsm_t C) : Option (__fsm_transition_t C) :=
  firstFiring f.transitions f.__current_state_idx (tickCtx f)

/-- The engine and trace produced by one `run` call (the engine unchanged
and an empty trace when `run` reports an error). -/
def runResult {C : Type} (f : fsm_t C) : fsm_t C × List FsmEvent :=
  match fsm_run f with
  | Except.ok r => r
  | Except.error _ => (f, [])

/-- Fixture: a state named "A" with inert callbacks. -/
def stA : fsm_state_t Nat := ⟨"A", id, id, id⟩

/-- Fixture: a state named "B" with inert callbacks. -/
def stB : fsm_state_t Nat := ⟨"B", id, id, id⟩

/-- Fixture: a state named "X" with inert callbacks. -/
def stX : fsm_state_t Nat := ⟨"X", id, id, id⟩

/-- Fixture: a state named "C" with inert callbacks. -/
def stC : fsm_state_t Nat := ⟨"C", id, id, id⟩

/-- Fixture: an always-true one-predicate group. -/
def gTrue : fsm_predicate_group_t Nat := FSM_PREDICATE_GROUP 8 [fun _ => true]

/-- Fixture: an engine holding the single state "A". -/
def wOneState : fsm_t Nat := (fsm_add_state (fsm_create 0 4) stA).1

/-- Fixture: an engine with states "A" and "B", a transition "A" → "B" whose
group always holds, and current state "A" not yet ticked. -/
def w1 : fsm_t Nat :=
  (fsm_set_state
    (fsm_add_transition
      (fsm_add_state (fsm_add_state (fsm_create 0 8) stA).1 stB).1
      "A" "B" gTrue).1
    "A").1

/-- Fixture: an engine with the three states "A", "B", "X" and no
transitions. -/
def w6 : fsm_t Nat :=
  (fsm_add_state (fsm_add_state (fsm_add_state (fsm_create 0 8) stA).1 stB).1 stX).1

/-- From src/examples/basic.c lines 15-22: the Idle state; its update prints
and increments the stamina counter (printing is outside the model). -/
def idleState : fsm_state_t Int := ⟨"Idle", id, fun c => c + 1, id⟩

/-- From src/examples/basic.c lines 24-31: the Walk state; its update
decrements the stamina counter. -/
def walkState : fsm_state_t Int := ⟨"Walk", id, fun c => c - 1, id⟩

/-- From src/examples/basic.c lines 37-39 and 55-56: the Idle → Walk guard,
stamina ≥ STAMINA_THRESHOLD (10), registered through FSM_PREDICATE_GROUP. -/
def idleToWalk : fsm_predicate_group_t Int :=
  FSM_PREDICATE_GROUP 8 [fun c => decide (10 ≤ c)]

/-- From src/examples/basic.c lines 33-35 and 58-59: the Walk → Idle guard,
stamina == 0. -/
def walkToIdle : fsm_predicate_group_t Int :=
  FSM_PREDICATE_GROUP 8 [fun c => decide (c = 0)]

/-- From src/examples/basic.c main (lines 41-62): the example engine —
states Idle and Walk, transitions Idle → Walk and Walk → Idle as above,
initial state Idle, stamina counter 0. -/
def exampleFsm : fsm_t Int :=
  (fsm_set_state
    (fsm_add_transition
      (fsm_add_transition
        (fsm_add_state (fsm_add_state (fsm_create (0 : Int) 8) idleState).1 walkState).1
        "Idle" "Walk" idleToWalk).1
      "Walk" "Idle" walkToIdle).1
    "Idle").1

/-! ### Lemmas about the state registry scan -/

theorem stateIndexAux_eq_none_iff {C : Type} (n : String) (l : List (fsm_state_t C)) :
    stateIndexAux n l = none ↔ ∀ s ∈ l, s.name ≠ n := by
  induction l with
  | nil => simp [stateIndexAux]
  | cons s rest ih =>
    by_cases h : s.name = n
    · simp [stateIndexAux, h]
    · simp [stateIndexAux, h, Option.map_eq_none', ih]

theorem stateIndexAux_lt {C : Type} (n : String) (l : List (fsm_state_t C)) (j : Nat)
    (h : stateIndexAux n l = some j) : j < l.length := by
  induction l generalizing j with
  | nil => simp [stateIndexAux] at h
  | cons s rest ih =>
    by_cases hn : s.name = n
    · simp [stateIndexAux, hn] at h
      simp only [List.length_cons]
      omega
    · simp [stateIndexAux, hn, Option.map_eq_some'] at h
      obtain ⟨k, hk, rfl⟩ := h
      have := ih k hk
      simp only [List.length_cons]
      omega

theorem state_index_eq_none_iff {C : Type} (f : fsm_t C) (n : String) :
    __fsm_state_index f n = none ↔ ∀ s ∈ f.states, s.name ≠ n :=
  stateIndexAux_eq_none_iff n f.states

/-! ### C1: the per-tick algorithm of run -/

theorem evalPredicates_fst {C : Type} (ctx : C) (l : List (C → Bool)) :
    (evalPredicates ctx l).1 = l.all (fun p => p ctx) := by
  induction l with
  | nil => rfl
  | cons p rest ih =>
    by_cases h : p ctx
    · simp [evalPredicates, h, ih]
    · simp [evalPredicates, h]

theorem callbackEvents_append (a b : List FsmEvent) :
    callbackEvents (a ++ b) = callbackEvents a ++ callbackEvents b := by
  simp [callbackEvents]

theorem callbackEvents_pred_cons (b : Bool) (evs : List FsmEvent) :
    callbackEvents (FsmEvent.pred b :: evs) = callbackEvents evs := by
  simp [callbackEvents]

theorem callbackEvents_enter_cons (n : String) (evs : List FsmEvent) :
    callbackEvents (FsmEvent.enter n :: evs) = FsmEvent.enter n :: callbackEvents evs := by
  simp [callbackEvents]

theorem callbackEvents_update_cons (n : String) (evs : List FsmEvent) :
    callbackEvents (FsmEvent.update n :: evs) = FsmEvent.update n :: callbackEvents evs := by
  simp [callbackEvents]

theorem callbackEvents_exit_cons (n : String) (evs : List FsmEvent) :
    callbackEvents (FsmEvent.exit n :: evs) = FsmEvent.exit n :: callbackEvents evs := by
  simp [callbackEvents]

theorem evalPredicates_events_pred {C : Type} (ctx : C) (l : List (C → Bool)) :
    ∀ e ∈ (evalPredicates ctx l).2, ∃ b, e = FsmEvent.pred b := by
  induction l with
  | nil => simp [evalPredicates]
  | cons p rest ih =>
    by_cases h : p ctx
    · intro e he
      simp [evalPredicates, h] at he
      rcases he with rfl | he
      · exact ⟨true, rfl⟩
      · exact ih e he
    · intro e he
      simp [evalPredicates, h] at he
      exact ⟨false, he⟩

theorem callbackEvents_evalPredicates {C : Type} (ctx : C) (l : List (C → Bool)) :
    callbackEvents (evalPredicates ctx l).2 = [] := by
  induction l with
  | nil => rfl
  | cons p rest ih =>
    by_cases h : p ctx
    · simp [evalPredicates, h, callbackEvents_pred_cons, ih]
    · simp [evalPredicates, h, callbackEvents_pred_cons, callbackEvents]

theorem scanTransitions_of_none {C : Type} (states : List (fsm_state_t C)) (i : Nat)
    (ctx : C) (ts : List (__fsm_transition_t C)) (h : firstFiring ts i ctx = none) :
    (scanTransitions states i ctx ts).1 = i ∧
    (scanTransitions states i ctx ts).2.1 = ctx ∧
    callbackEvents (scanTransitions states i ctx ts).2.2 = [] := by
  induction ts with
  | nil => exact ⟨rfl, rfl, rfl⟩
  | cons t0 rest ih =>
    rw [firstFiring] at h
    by_cases hfrom : t0.from_idx = i
    · cases hg : groupHolds ctx t0.predicates with
      | true =>
        have hpt : (t0.from_idx == i && groupHolds ctx t0.predicates) = true := by
          simp [hfrom, hg]
        have hfind : List.find?
            (fun u => u.from_idx == i && groupHolds ctx u.predicates) (t0 :: rest) =
            some t0 := List.find?_cons_of_pos rest hpt
        rw [hfind] at h
        exact Option.noConfusion h
      | false =>
        have hptn : ¬ (t0.from_idx == i && groupHolds ctx t0.predicates) = true := by
          simp [hg]
        have hfind : List.find?
            (fun u => u.from_idx == i && groupHolds ctx u.predicates) (t0 :: rest) =
            List.find? (fun u => u.from_idx == i && groupHolds ctx u.predicates) rest :=
          List.find?_cons_of_neg rest hptn
        rw [hfind] at h
        have hfst : (evalPredicates ctx t0.predicates.predicates).1 = false := by
          rw [evalPredicates_fst]
          exact hg
        have hrest := ih h
        refine ⟨?_, ?_, ?_⟩ <;>
          simp [scanTransitions, hfrom, hfst, callbackEvents_append,
            callbackEvents_evalPredicates, hrest.1, hrest.2.1, hrest.2.2]
    · have hptn : ¬ (t0.from_idx == i && groupHolds ctx t0.predicates) = true := by
        simp [hfrom]
      have hfind : List.find?
          (fun u => u.from_idx == i && groupHolds ctx u.predicates) (t0 :: rest) =
          List.find? (fun u => u.from_idx == i && groupHolds ctx u.predicates) rest :=
        List.find?_cons_of_neg rest hptn
      rw [hfind] at h
      have hrest := ih h
      refine ⟨?_, ?_, ?_⟩ <;>
        simp [scanTransitions, hfrom, hrest.1, hrest.2.1, hrest.2.2]

theorem scanTransitions_of_some {C : Type} (states : List (fsm_state_t C)) (i : Nat)
    (ctx : C) (ts : List (__fsm_transition_t C)) (t : __fsm_transition_t C)
    (h : firstFiring ts i ctx = some t) (hi : i < states.length)
    (ht : t.to_idx < states.length) :
    (scanTransitions states i ctx ts).1 = t.to_idx ∧
    (scanTransitions states i ctx ts).2.1 = enterAt states t.to_idx (exitAt states i ctx) ∧
    callbackEvents (scanTransitions states i ctx ts).2.2 =
      [FsmEvent.exit (nameAt states i), FsmEvent.enter (nameAt states t.to_idx)] := by
  induction ts with
  | nil => simp [firstFiring] at h
  | cons t0 rest ih =>
    rw [firstFiring] at h
    by_cases hfrom : t0.from_idx = i
    · cases hg : groupHolds ctx t0.predicates with
      | true =>
        have hpt : (t0.from_idx == i && groupHolds ctx t0.predicates) = true := by
          simp [hfrom, hg]
        have hfind : List.find?
            (fun u => u.from_idx == i && groupHolds ctx u.predicates) (t0 :: rest) =
            some t0 := List.find?_cons_of_pos rest hpt
        rw [hfind] at h
        obtain rfl := Option.some.inj h
        have hfst : (evalPredicates ctx t0.predicates.predicates).1 = true := by
          rw [evalPredicates_fst]
          exact hg
        obtain ⟨si, hsi⟩ : ∃ si, states.get? i = some si := ⟨_, List.get?_eq_get hi⟩
        obtain ⟨sj, hsj⟩ : ∃ sj, states.get? t0.to_idx = some sj :=
          ⟨_, List.get?_eq_get ht⟩
        have hsi2 : states[i]? = some si := by
          rw [← List.get?_eq_getElem?]
          exact hsi
        have hsj2 : states[t0.to_idx]? = some sj := by
          rw [← List.get?_eq_getElem?]
          exact hsj
        refine ⟨?_, ?_, ?_⟩ <;>
          simp [scanTransitions, hfrom, hfst, hsi, hsj, hsi2, hsj2, enterAt, exitAt,
            nameAt, callbackEvents_append, callbackEvents_evalPredicates,
            callbackEvents_exit_cons, callbackEvents_enter_cons, callbackEvents]
        intro e he
        obtain ⟨b, rfl⟩ := evalPredicates_events_pred ctx t0.predicates.predicates e he
        rfl
      | false =>
        have hptn : ¬ (t0.from_idx == i && groupHolds ctx t0.predicates) = true := by
          simp [hg]
        have hfind : List.find?
            (fun u => u.from_idx == i && groupHolds ctx u.predicates) (t0 :: rest) =
            List.find? (fun u => u.from_idx == i && groupHolds ctx u.predicates) rest :=
          List.find?_cons_of_neg rest hptn
        rw [hfind] at h
        have hfst : (evalPredicates ctx t0.predicates.predicates).1 = false := by
          rw [evalPredicates_fst]
          exact hg
        have hrest := ih h
        refine ⟨?_, ?_, ?_⟩ <;>
          simp [scanTransitions, hfrom, hfst, callbackEvents_append,
            callbackEvents_evalPredicates, hrest.1, hrest.2.1, hrest.2.2]
    · have hptn : ¬ (t0.from_idx == i && groupHolds ctx t0.predicates) = true := by
        simp [hfrom]
      have hfind : List.find?
          (fun u => u.from_idx == i && groupHolds ctx u.predicates) (t0 :: rest) =
          List.find? (fun u => u.from_idx == i && groupHolds ctx u.predicates) rest :=
        List.find?_cons_of_neg rest hptn
      rw [hfind] at h
      have hrest := ih h
      refine ⟨?_, ?_, ?_⟩ <;>
        simp [scanTransitions, hfrom, hrest.1, hrest.2.1, hrest.2.2]

theorem runTick_eq {C : Type} (f : fsm_t C) (ft : Bool) (s : fsm_state_t C)
    (hs : f.states.get? f.__current_state_idx = some s) :
    runTick f ft = Except.ok
      ({ f with
          context :=
            (scanTransitions f.states f.__current_state_idx
              (s.on_update (if ft then s.on_enter f.context else f.context))
              f.transitions).2.1
          __current_state_idx :=
            (scanTransitions f.states f.__current_state_idx
              (s.on_update (if ft then s.on_enter f.context else f.context))
              f.transitions).1
          status := FsmStatus.running },
       (if ft then [FsmEvent.enter s.name] else []) ++
         FsmEvent.update s.name ::
           (scanTransitions f.states f.__current_state_idx
             (s.on_update (if ft then s.on_enter f.context else f.context))
             f.transitions).2.2) := by
  unfold runTick
  rw [hs]

theorem run_C1_core {C : Type} (f : fsm_t C) (s : fsm_state_t C) (cpre : C)
    (eEvs : List FsmEvent)
    (hlt : f.__current_state_idx < f.states.length)
    (hwf : ∀ t ∈ f.transitions, t.to_idx < f.states.length)
    (hs : f.states.get? f.__current_state_idx = some s)
    (htick : tickCtx f = s.on_update cpre)
    (hEE : enterEvents f = eEvs)
    (hCE : callbackEvents eEvs = eEvs)
    (hrunval : fsm_run f = Except.ok
      ({ f with
          context :=
            (scanTransitions f.states f.__current_state_idx (s.on_update cpre)
              f.transitions).2.1
          __current_state_idx :=
            (scanTransitions f.states f.__current_state_idx (s.on_update cpre)
              f.transitions).1
          status := FsmStatus.running },
       eEvs ++
         FsmEvent.update s.name ::
           (scanTransitions f.states f.__current_state_idx (s.on_update cpre)
             f.transitions).2.2)) :
    (fsm_run f).isOk = true ∧
    (firedTransition f = none →
        (runResult f).1.__current_state_idx = f.__current_state_idx ∧
        (runResult f).1.context = tickCtx f ∧
        callbackEvents (runResult f).2 =
          enterEvents f ++ [FsmEvent.update (nameAt f.states f.__current_state_idx)]) ∧
    (∀ t, firedTransition f = some t →
        (runResult f).1.__current_state_idx = t.to_idx ∧
        (runResult f).1.context =
          enterAt f.states t.to_idx
            (exitAt f.states f.__current_state_idx (tickCtx f)) ∧
        callbackEvents (runResult f).2 =
          enterEvents f ++
            [FsmEvent.update (nameAt f.states f.__current_state_idx),
             FsmEvent.exit (nameAt f.states f.__current_state_idx),
             FsmEvent.enter (nameAt f.states t.to_idx)]) := by
  have hname : nameAt f.states f.__current_state_idx = s.name := by
    unfold nameAt
    rw [hs]
    rfl
  have hrr : runResult f =
      ({ f with
          context :=
            (scanTransitions f.states f.__current_state_idx (s.on_update cpre)
              f.transitions).2.1
          __current_state_idx :=
            (scanTransitions f.states f.__current_state_idx (s.on_update cpre)
              f.transitions).1
          status := FsmStatus.running },
       eEvs ++
         FsmEvent.update s.name ::
           (scanTransitions f.states f.__current_state_idx (s.on_update cpre)
             f.transitions).2.2) := by
    unfold runResult
    rw [hrunval]
  refine ⟨by rw [hrunval]; rfl, ?_, ?_⟩
  · intro h0
    rw [firedTransition, htick] at h0
    have hsc := scanTransitions_of_none f.states f.__current_state_idx
      (s.on_update cpre) f.transitions h0
    refine ⟨?_, ?_, ?_⟩
    · rw [hrr]
      exact hsc.1
    · rw [hrr, htick]
      exact hsc.2.1
    · rw [hrr, hEE, callbackEvents_append, callbackEvents_update_cons,
        hsc.2.2, hCE, hname]
  · intro t hT
    rw [firedTransition, htick] at hT
    have hmem : t ∈ f.transitions := List.mem_of_find?_eq_some hT
    have hsc := scanTransitions_of_some f.states f.__current_state_idx
      (s.on_update cpre) f.transitions t hT hlt (hwf t hmem)
    refine ⟨?_, ?_, ?_⟩
    · rw [hrr]
      exact hsc.1
    · rw [hrr, htick]
      exact hsc.2.1
    · rw [hrr, hEE, callbackEvents_append, callbackEvents_update_cons,
        hsc.2.2, hCE, hname]

/-- C1: on every engine whose current state is set and that is being run, one
`run()` call performs exactly this tick: if it is the first tick since the
current state became active, `on_enter` of that state; then `on_update` of
the current state; then the transitions are evaluated in registration order
against the post-update context, skipping those whose from-state is not the
current state; if some registered transition out of the current state has a
satisfied group, the first such transition — and only it — fires: `on_exit`
of the old state, the current state becomes the transition's target,
`on_enter` of the new state, and no further transition is evaluated, so at
most one transition fires per tick and `on_update` of the new state is not
invoked in the same tick; if none is satisfied the state is unchanged. -/
theorem fsm_run_C1 {C : Type} (f : fsm_t C)
    (hlt : f.__current_state_idx < f.states.length)
    (hst : f.status = FsmStatus.ready ∨ f.status = FsmStatus.running)
    (hwf : ∀ t ∈ f.transitions, t.to_idx < f.states.length) :
    (fsm_run f).isOk = true ∧
    (firedTransition f = none →
        (runResult f).1.__current_state_idx = f.__current_state_idx ∧
        (runResult f).1.context = tickCtx f ∧
        callbackEvents (runResult f).2 =
          enterEvents f ++ [FsmEvent.update (nameAt f.states f.__current_state_idx)]) ∧
    (∀ t, firedTransition f = some t →
        (runResult f).1.__current_state_idx = t.to_idx ∧
        (runResult f).1.context =
          enterAt f.states t.to_idx
            (exitAt f.states f.__current_state_idx (tickCtx f)) ∧
        callbackEvents (runResult f).2 =
          enterEvents f ++
            [FsmEvent.update (nameAt f.states f.__current_state_idx),
             FsmEvent.exit (nameAt f.states f.__current_state_idx),
             FsmEvent.enter (nameAt f.states t.to_idx)]) := by
  obtain ⟨s, hs⟩ : ∃ s, f.states.get? f.__current_state_idx = some s :=
    ⟨_, List.get?_eq_get hlt⟩
  cases hst with
  | inl hready =>
    have hpre : preTickCtx f = s.on_enter f.context := by
      unfold preTickCtx
      rw [if_pos hready]
      unfold enterAt
      rw [hs]
    have htick : tickCtx f = s.on_update (s.on_enter f.context) := by
      unfold tickCtx updateAt
      rw [hs, hpre]
    have hEE : enterEvents f = [FsmEvent.enter s.name] := by
      unfold enterEvents
      rw [if_pos hready]
      unfold nameAt
      rw [hs]
      rfl
    have hrunval : fsm_run f = runTick f true := by
      unfold fsm_run
      rw [hready]
    exact run_C1_core f s (s.on_enter f.context) [FsmEvent.enter s.name] hlt hwf hs
      htick hEE (callbackEvents_enter_cons s.name []) (hrunval.trans (runTick_eq f true s hs))
  | inr hrunning =>
    have hne : ¬ f.status = FsmStatus.ready := by
      rw [hrunning]
      intro hc
      exact FsmStatus.noConfusion hc
    have hpre : preTickCtx f = f.context := by
      unfold preTickCtx
      rw [if_neg hne]
    have htick : tickCtx f = s.on_update f.context := by
      unfold tickCtx updateAt
      rw [hs, hpre]
    have hEE : enterEvents f = [] := by
      unfold enterEvents
      rw [if_neg hne]
    have hrunval : fsm_run f = runTick f false := by
      unfold fsm_run
      rw [hrunning]
    exact run_C1_core f s f.context [] hlt hwf hs htick hEE rfl
      (hrunval.trans (runTick_eq f false s hs))

/-- Witness for C1 at a concrete engine: on the two-state engine `w1` with
its always-true transition "A" → "B", the first tick fires that transition,
moves the current state to index 1 ("B"), and the lifecycle trace of the
tick is exactly enter "A", update "A", exit "A", enter "B". -/
theorem fsm_run_C1_witness :
    (runResult w1).1.__current_state_idx = 1 ∧
    callbackEvents (runResult w1).2 =
      [FsmEvent.enter "A", FsmEvent.update "A", FsmEvent.exit "A", FsmEvent.enter "B"] := by
  have h := fsm_run_C1 w1 (by decide) (Or.inl rfl) (by decide)
  have hfire : firedTransition w1 = some ⟨0, 1, gTrue⟩ := rfl
  have hc := h.2.2 ⟨0, 1, gTrue⟩ hfire
  exact ⟨hc.1, hc.2.2⟩

/-! ### C2: duplicate-name rejection in add_state -/

/-- C2: a call of `add_state` whose state name equals the name of an
already-registered state fails with `DuplicateState` and leaves the state
registry unchanged; a call with a fresh name appends a copy of the state and
increases `state_count` by exactly one. -/
theorem fsm_add_state_C2 {C : Type} (f : fsm_t C) (s : fsm_state_t C) :
    ((∃ t ∈ f.states, t.name = s.name) →
        fsm_add_state f s = (f, some FsmError.DuplicateState) ∧
        fsm_state_count (fsm_add_state f s).1 = fsm_state_count f) ∧
    ((∀ t ∈ f.states, t.name ≠ s.name) →
        (fsm_add_state f s).2 = none ∧
        (fsm_add_state f s).1.states = f.states ++ [s] ∧
        fsm_state_count (fsm_add_state f s).1 = fsm_state_count f + 1) := by
  constructor
  · rintro ⟨t, ht, hname⟩
    cases hI : __fsm_state_index f s.name with
    | none =>
      exact absurd hname ((stateIndexAux_eq_none_iff s.name f.states).mp hI t ht)
    | some j =>
      simp [fsm_add_state, hI, fsm_state_count]
  · intro h
    have hI : __fsm_state_index f s.name = none :=
      (stateIndexAux_eq_none_iff s.name f.states).mpr h
    simp [fsm_add_state, hI, fsm_state_count]

/-- Witness for C2 at a concrete engine: re-adding "A" to the engine that
already holds "A" is rejected with `DuplicateState` and the registry keeps
its single state, while adding the fresh "B" succeeds and grows the count
to two. -/
theorem fsm_add_state_C2_witness :
    fsm_add_state wOneState stA = (wOneState, some FsmError.DuplicateState) ∧
    fsm_state_count (fsm_add_state wOneState stA).1 = 1 ∧
    (fsm_add_state wOneState stB).2 = none ∧
    fsm_state_count (fsm_add_state wOneState stB).1 = 2 := by
  have hdup := (fsm_add_state_C2 wOneState stA).1 ⟨stA, List.mem_singleton_self stA, rfl⟩
  have hfresh := (fsm_add_state_C2 wOneState stB).2 (by decide)
  exact ⟨hdup.1, hdup.2, hfresh.1, hfresh.2.2⟩

/-! ### C3: referential integrity of add_transition -/

/-- C3: `add_transition(from, to, P)` fails with `UnknownState` if and only
if `from` or `to` is absent from the state registry at call time; on failure
`transition_count` is unchanged (the engine is unchanged), and on success it
increases by exactly one. -/
theorem fsm_add_transition_C3 {C : Type} (f : fsm_t C) (a b : String)
    (g : fsm_predicate_group_t C) :
    ((fsm_add_transition f a b g).2 = some FsmError.UnknownState ↔
        (∀ t ∈ f.states, t.name ≠ a) ∨ (∀ t ∈ f.states, t.name ≠ b)) ∧
    ((fsm_add_transition f a b g).2 = some FsmError.UnknownState →
        (fsm_add_transition f a b g).1 = f) ∧
    ((fsm_add_transition f a b g).2 = none →
        fsm_transition_count (fsm_add_transition f a b g).1 =
          fsm_transition_count f + 1) := by
  cases hA : __fsm_state_index f a with
  | none =>
    have ha := (state_index_eq_none_iff f a).mp hA
    have hval : fsm_add_transition f a b g = (f, some FsmError.UnknownState) := by
      unfold fsm_add_transition
      rw [hA]
    refine ⟨⟨fun _ => Or.inl ha, fun _ => by rw [hval]⟩, fun _ => by rw [hval],
      fun hc => ?_⟩
    rw [hval] at hc
    exact Option.noConfusion hc
  | some i =>
    have ha : ¬ ∀ t ∈ f.states, t.name ≠ a := fun h =>
      Option.noConfusion (hA.symm.trans ((state_index_eq_none_iff f a).mpr h))
    cases hB : __fsm_state_index f b with
    | none =>
      have hb := (state_index_eq_none_iff f b).mp hB
      have hval : fsm_add_transition f a b g = (f, some FsmError.UnknownState) := by
        unfold fsm_add_transition
        rw [hA, hB]
      refine ⟨⟨fun _ => Or.inr hb, fun _ => by rw [hval]⟩, fun _ => by rw [hval],
        fun hc => ?_⟩
      rw [hval] at hc
      exact Option.noConfusion hc
    | some j =>
      have hb : ¬ ∀ t ∈ f.states, t.name ≠ b := fun h =>
        Option.noConfusion (hB.symm.trans ((state_index_eq_none_iff f b).mpr h))
      have hval : fsm_add_transition f a b g =
          ({ f with transitions := f.transitions ++ [⟨i, j, g⟩] }, none) := by
        unfold fsm_add_transition
        rw [hA, hB]
      refine ⟨⟨fun hc => ?_, fun hc => ?_⟩, fun hc => ?_, fun _ => ?_⟩
      · rw [hval] at hc
        exact Option.noConfusion hc
      · cases hc with
        | inl h => exact absurd h ha
        | inr h => exact absurd h hb
      · rw [hval] at hc
        exact Option.noConfusion hc
      · rw [hval]
        simp [fsm_transition_count]

/-- Witness for C3 at a concrete engine: wiring "A" → "B" on the engine
holding only "A" is rejected with `UnknownState` and leaves the engine
unchanged, while wiring "A" → "A" succeeds and grows the transition count
from zero to one. -/
theorem fsm_add_transition_C3_witness :
    (fsm_add_transition wOneState "A" "B" gTrue).2 = some FsmError.UnknownState ∧
    (fsm_add_transition wOneState "A" "B" gTrue).1 = wOneState ∧
    fsm_transition_count (fsm_add_transition wOneState "A" "A" gTrue).1 = 1 := by
  have h := fsm_add_transition_C3 wOneState "A" "B" gTrue
  have hfail : (fsm_add_transition wOneState "A" "B" gTrue).2 =
      some FsmError.UnknownState := h.1.mpr (Or.inr (by decide))
  have hok := fsm_add_transition_C3 wOneState "A" "A" gTrue
  exact ⟨hfail, h.2.1 hfail, (hok.2.2 rfl).trans rfl⟩

/-! ### C4: run before set_state fails fast -/

theorem fsm_add_state_fst_status {C : Type} (f : fsm_t C) (s : fsm_state_t C) :
    (fsm_add_state f s).1.status = f.status := by
  cases hI : __fsm_state_index f s.name <;> (unfold fsm_add_state; rw [hI])

theorem fsm_add_transition_fst_status {C : Type} (f : fsm_t C) (a b : String)
    (g : fsm_predicate_group_t C) : (fsm_add_transition f a b g).1.status = f.status := by
  cases hA : __fsm_state_index f a <;> cases hB : __fsm_state_index f b <;>
    (unfold fsm_add_transition; rw [hA, hB])

theorem fsm_add_transition_from_all_fst_status {C : Type} (f : fsm_t C) (b : String)
    (g : fsm_predicate_group_t C) :
    (fsm_add_transition_from_all f b g).1.status = f.status := by
  cases hB : __fsm_state_index f b <;> (unfold fsm_add_transition_from_all; rw [hB])

theorem fsm_stop_of_uninit {C : Type} (f : fsm_t C)
    (h : f.status = FsmStatus.uninitialized) : fsm_stop f = f := by
  unfold fsm_stop
  rw [h]

theorem fsm_run_of_uninit {C : Type} (f : fsm_t C)
    (h : f.status = FsmStatus.uninitialized) :
    fsm_run f = Except.error FsmError.NotInitialized := by
  unfold fsm_run
  rw [h]

theorem applyOp_uninit {C : Type} (f : fsm_t C) (op : FsmOp C)
    (hf : f.status = FsmStatus.uninitialized) (hop : ∀ n, op ≠ FsmOp.setState n) :
    (applyOp f op).status = FsmStatus.uninitialized := by
  cases op with
  | addState s => rw [applyOp, fsm_add_state_fst_status]; exact hf
  | addTransition a b g => rw [applyOp, fsm_add_transition_fst_status]; exact hf
  | addTransitionFromAll b g =>
    rw [applyOp, fsm_add_transition_from_all_fst_status]; exact hf
  | setState n => exact absurd rfl (hop n)
  | stop => rw [applyOp, fsm_stop_of_uninit f hf]; exact hf
  | run =>
    show (match fsm_run f with
          | Except.ok r => r.1
          | Except.error _ => f).status = FsmStatus.uninitialized
    rw [fsm_run_of_uninit f hf]
    exact hf

theorem applyOps_uninit {C : Type} (ops : List (FsmOp C)) (f : fsm_t C)
    (hf : f.status = FsmStatus.uninitialized) (hops : SetStateFree ops) :
    (applyOps f ops).status = FsmStatus.uninitialized := by
  induction ops generalizing f with
  | nil => exact hf
  | cons op ops ih =>
    have hop : ∀ n, op ≠ FsmOp.setState n := by
      intro n he
      exact hops n (by rw [← he] at *; exact List.mem_cons_self op ops)
    have htail : SetStateFree ops := by
      intro n hn
      exact hops n (List.mem_cons_of_mem op hn)
    exact ih (applyOp f op) (applyOp_uninit f op hf hop) htail

/-- C4: on every engine on which `set_state` has never succeeded — any engine
whose current state is still unset, and in particular a freshly created
engine driven by any sequence of API calls that never includes `set_state` —
`run()` fails fast with `NotInitialized`: it returns the error without
producing a tick (so no state callback and no predicate is invoked and the
unset current state is never dereferenced). -/
theorem fsm_run_C4 {C : Type} (f : fsm_t C) (c : C) (sz : Nat) (ops : List (FsmOp C)) :
    (f.status = FsmStatus.uninitialized →
        fsm_run f = Except.error FsmError.NotInitialized ∧ runResult f = (f, [])) ∧
    (SetStateFree ops →
        (applyOps (fsm_create c sz) ops).status = FsmStatus.uninitialized ∧
        fsm_run (applyOps (fsm_create c sz) ops) =
          Except.error FsmError.NotInitialized) := by
  constructor
  · intro hf
    refine ⟨fsm_run_of_uninit f hf, ?_⟩
    unfold runResult
    rw [fsm_run_of_uninit f hf]
  · intro hops
    have hst := applyOps_uninit ops (fsm_create c sz) rfl hops
    exact ⟨hst, fsm_run_of_uninit _ hst⟩

/-- Witness for C4: a fresh engine that received a state, a stop and a run —
but never a `set_state` — still rejects `run()` with `NotInitialized`. -/
theorem fsm_run_C4_witness :
    fsm_run (applyOps (fsm_create (0 : Nat) 8) [FsmOp.addState stA, FsmOp.stop, FsmOp.run]) =
      Except.error FsmError.NotInitialized := by
  have h := fsm_run_C4 (fsm_create (0 : Nat) 8) (0 : Nat) 8
    [FsmOp.addState stA, FsmOp.stop, FsmOp.run]
  refine (h.2 ?_).2
  intro n hn
  simp [List.mem_cons] at hn

/-! ### C5: stop semantics -/

theorem fsm_stop_fields {C : Type} (f : fsm_t C) :
    (fsm_stop f).__current_state_idx = f.__current_state_idx ∧
    (fsm_stop f).states = f.states ∧
    (fsm_stop f).transitions = f.transitions ∧
    (fsm_stop f).context = f.context := by
  unfold fsm_stop
  cases f.status <;> exact ⟨rfl, rfl, rfl, rfl⟩

theorem runTraceN_of_stopped {C : Type} (f : fsm_t C)
    (h : f.status = FsmStatus.stopped) (n : Nat) : runTraceN n f = (f, []) := by
  induction n with
  | zero => rfl
  | succ n ih =>
    have hrun : fsm_run f = Except.ok (f, []) := by
      unfold fsm_run
      rw [h]
    show (match fsm_run f with
          | Except.ok r =>
              let rest := runTraceN n r.1
              (rest.1, r.2 ++ rest.2)
          | Except.error _ => runTraceN n f) = (f, [])
    rw [hrun]
    simp [ih]

theorem runTraceN_of_uninit {C : Type} (f : fsm_t C)
    (h : f.status = FsmStatus.uninitialized) (n : Nat) : runTraceN n f = (f, []) := by
  induction n with
  | zero => rfl
  | succ n ih =>
    show (match fsm_run f with
          | Except.ok r =>
              let rest := runTraceN n r.1
              (rest.1, r.2 ++ rest.2)
          | Except.error _ => runTraceN n f) = (f, [])
    rw [fsm_run_of_uninit f h]
    simp [ih]

/-- C5: after `stop()`, any number of subsequent `run()` calls invokes no
`on_enter`, `on_update`, `on_exit` callback and no predicate (the collected
invocation trace is empty), and leaves the engine — in particular its
current state — unchanged. -/
theorem fsm_stop_C5 {C : Type} (f : fsm_t C) (n : Nat) :
    runTraceN n (fsm_stop f) = (fsm_stop f, []) ∧
    (fsm_stop f).__current_state_idx = f.__current_state_idx ∧
    fsm_current_state (fsm_stop f) = fsm_current_state f := by
  have hfields := fsm_stop_fields f
  have hcur : fsm_current_state (fsm_stop f) = fsm_current_state f := by
    unfold fsm_current_state
    rw [hfields.1, hfields.2.1]
  by_cases h : f.status = FsmStatus.uninitialized
  · rw [fsm_stop_of_uninit f h] at *
    exact ⟨runTraceN_of_uninit f h n, rfl, rfl⟩
  · have hs : (fsm_stop f).status = FsmStatus.stopped := by
      unfold fsm_stop
      cases hst : f.status with
      | uninitialized => exact absurd hst h
      | ready => rfl
      | running => rfl
      | stopped => rfl
    exact ⟨runTraceN_of_stopped (fsm_stop f) hs n, hfields.1, hcur⟩

/-! ### C6: bulk wiring is a snapshot over the registered states -/

theorem fsm_add_state_fst_transitions {C : Type} (f : fsm_t C) (s : fsm_state_t C) :
    (fsm_add_state f s).1.transitions = f.transitions := by
  cases hI : __fsm_state_index f s.name <;> (unfold fsm_add_state; rw [hI])

theorem wireFromAll_map {C : Type} (j : Nat) (g : fsm_predicate_group_t C) (n : Nat) :
    (wireFromAll j g n).map (fun t => t.from_idx) =
      (List.range n).filter (fun i => i != j) := by
  induction n with
  | zero => rfl
  | succ n ih =>
    by_cases h : n = j
    · subst h
      simp [wireFromAll, List.range_succ, ih]
    · simp [wireFromAll, List.range_succ, ih, h]

theorem wireFromAll_length_of_ge {C : Type} (j : Nat) (g : fsm_predicate_group_t C)
    (n : Nat) (h : n ≤ j) : (wireFromAll j g n).length = n := by
  induction n with
  | zero => rfl
  | succ n ih =>
    have hne : n ≠ j := by omega
    simp [wireFromAll, hne, ih (by omega)]

theorem wireFromAll_length_of_lt {C : Type} (j : Nat) (g : fsm_predicate_group_t C)
    (n : Nat) (h : j < n) : (wireFromAll j g n).length = n - 1 := by
  induction n with
  | zero => omega
  | succ n ih =>
    by_cases hj : n = j
    · subst hj
      simp [wireFromAll, wireFromAll_length_of_ge n g n (le_refl n)]
    · have hlt : j < n := by omega
      simp [wireFromAll, hj, ih hlt]
      omega

theorem wireFromAll_mem {C : Type} (j : Nat) (g : fsm_predicate_group_t C) (n : Nat) :
    ∀ t ∈ wireFromAll j g n,
      t.to_idx = j ∧ t.predicates = g ∧ t.from_idx < n ∧ t.from_idx ≠ j := by
  induction n with
  | zero => simp [wireFromAll]
  | succ n ih =>
    intro t ht
    by_cases h : n = j
    · subst h
      simp [wireFromAll] at ht
      have := ih t ht
      exact ⟨this.1, this.2.1, by omega, this.2.2.2⟩
    · simp [wireFromAll, h] at ht
      cases ht with
      | inl ht =>
        have := ih t ht
        exact ⟨this.1, this.2.1, by omega, this.2.2.2⟩
      | inr ht =>
        subst ht
        exact ⟨rfl, rfl, Nat.lt_succ_self n, h⟩

/-- C6: when the registry resolves the target name `b` to index `j`,
`add_transition_from_all` succeeds and appends, in registration order,
exactly one transition `s → b` for each state `s` other than `b` registered
at call time (no self-loop), each holding its own copy of the predicate
group, so the transition count grows by `state_count - 1`; and a state
registered after the call gets no additional transition. -/
theorem fsm_add_transition_from_all_C6 {C : Type} (f : fsm_t C) (b : String)
    (g : fsm_predicate_group_t C) (j : Nat) (hj : __fsm_state_index f b = some j) :
    (fsm_add_transition_from_all f b g).2 = none ∧
    (fsm_add_transition_from_all f b g).1.states = f.states ∧
    (fsm_add_transition_from_all f b g).1.transitions =
      f.transitions ++ wireFromAll j g f.states.length ∧
    (wireFromAll j g f.states.length).map (fun t => t.from_idx) =
      (List.range f.states.length).filter (fun i => i != j) ∧
    (∀ t ∈ wireFromAll j g f.states.length,
        t.to_idx = j ∧ t.predicates = g ∧ t.from_idx ≠ j) ∧
    fsm_transition_count (fsm_add_transition_from_all f b g).1 =
      fsm_transition_count f + (fsm_state_count f - 1) ∧
    (∀ s, (fsm_add_state (fsm_add_transition_from_all f b g).1 s).1.transitions =
        (fsm_add_transition_from_all f b g).1.transitions) := by
  have hval : fsm_add_transition_from_all f b g =
      ({ f with transitions := f.transitions ++ wireFromAll j g f.states.length },
       none) := by
    unfold fsm_add_transition_from_all
    rw [hj]
  refine ⟨by rw [hval], by rw [hval], by rw [hval],
    wireFromAll_map j g f.states.length, ?_, ?_, fun s => fsm_add_state_fst_transitions _ s⟩
  · intro t ht
    have h := wireFromAll_mem j g f.states.length t ht
    exact ⟨h.1, h.2.1, h.2.2.2⟩
  · rw [hval]
    show (f.transitions ++ wireFromAll j g f.states.length).length = _
    rw [List.length_append,
      wireFromAll_length_of_lt j g f.states.length (stateIndexAux_lt b f.states j hj)]
    rfl

/-- Witness for C6 at a concrete engine: wiring everything to "X" on the
three-state engine {A, B, X} creates exactly two transitions, and a state
"C" added afterwards changes no transition. -/
theorem fsm_add_transition_from_all_C6_witness :
    fsm_transition_count (fsm_add_transition_from_all w6 "X" gTrue).1 = 2 ∧
    (fsm_add_state (fsm_add_transition_from_all w6 "X" gTrue).1 stC).1.transitions =
      (fsm_add_transition_from_all w6 "X" gTrue).1.transitions := by
  have h := fsm_add_transition_from_all_C6 w6 "X" gTrue 2 (by decide)
  exact ⟨h.2.2.2.2.2.1, h.2.2.2.2.2.2 stC⟩

/-! ### C7: the four inline accessors -/

/-- C7 fails as stated: on a freshly created engine, whose state registry is
empty and whose current state is unset, `fsm_current_state` reads
`states[__current_state_idx]` outside the (empty) states array — in the
embedding the read returns `none` instead of a state name, so the accessor
does not succeed there. -/
theorem fsm_current_state_C7_counterexample :
    fsm_current_state (fsm_create (0 : Nat) 8) = none ∧
    ∀ n, fsm_current_state (fsm_create (0 : Nat) 8) ≠ some n := by
  constructor
  · rfl
  · intro n h
    exact Option.noConfusion h

/-- C7 amended: `state_count`, `transition_count` and `is_running` succeed on
every engine and return the stored state count, transition count and running
flag; `current_state` returns the name of the state at the stored current
index whenever that index is inside the state registry (in particular after
any successful `set_state`), but on an engine with no states — such as a
freshly created one — its array read is out of bounds. -/
theorem fsm_accessors_C7 {C : Type} (f : fsm_t C)
    (h : f.__current_state_idx < f.states.length) :
    fsm_state_count f = f.states.length ∧
    fsm_transition_count f = f.transitions.length ∧
    fsm_is_running f = decide (f.status = FsmStatus.running) ∧
    fsm_current_state f = some (f.states.get ⟨f.__current_state_idx, h⟩).name := by
  refine ⟨rfl, rfl, rfl, ?_⟩
  show (f.states.get? f.__current_state_idx).map (fun s => s.name) = _
  rw [List.get?_eq_get h]
  rfl

/-- Witness for C7 at a concrete engine: on the one-state engine the stored
index 0 is in range and `current_state` returns "A"; the other accessors
return the stored values. -/
theorem fsm_accessors_C7_witness :
    fsm_current_state wOneState = some "A" ∧
    fsm_state_count wOneState = 1 ∧
    fsm_is_running wOneState = false := by
  have h := fsm_accessors_C7 wOneState (by decide)
  exact ⟨h.2.2.2.trans rfl, h.1.trans rfl, h.2.2.1.trans rfl⟩

/-! ### C9: the FSM_PREDICATE_GROUP macro -/

/-- C9: for every nonzero number N of predicate arguments, the
FSM_PREDICATE_GROUP macro builds a group whose `predicates` array holds
exactly those N functions in argument order and whose `predicate_count`
equals N (the C expression `sizeof(array) / sizeof(element)` with a
positive element size). -/
theorem FSM_PREDICATE_GROUP_C9 {C : Type} (ptrSize : Nat) (fns : List (C → Bool))
    (hp : 0 < ptrSize) (_hne : fns ≠ []) :
    (FSM_PREDICATE_GROUP ptrSize fns).predicates = fns ∧
    (FSM_PREDICATE_GROUP ptrSize fns).predicate_count = fns.length := by
  refine ⟨rfl, ?_⟩
  simp [FSM_PREDICATE_GROUP, Nat.mul_div_cancel _ hp]

/-- Witness for C9 at a concrete group of two predicates and an 8-byte
function pointer. -/
theorem FSM_PREDICATE_GROUP_C9_witness :
    (FSM_PREDICATE_GROUP 8 [fun c : Nat => decide (0 < c), fun c : Nat => decide (c < 5)]).predicates =
      [fun c : Nat => decide (0 < c), fun c : Nat => decide (c < 5)] ∧
    (FSM_PREDICATE_GROUP 8 [fun c : Nat => decide (0 < c), fun c : Nat => decide (c < 5)]).predicate_count = 2 :=
  FSM_PREDICATE_GROUP_C9 8 [fun c : Nat => decide (0 < c), fun c : Nat => decide (c < 5)]
    (by decide) (by simp)

/-! ### C10: the FSM_CREATE macro records sizeof of its argument -/

/-- C10: `FSM_CREATE(context)` passes `sizeof(context)` — the size of the
argument expression — as the engine's context size; with the documented
pointer argument the recorded `__context_size` is the size of that pointer,
not the size of the struct it points to (whenever the two sizes differ). -/
theorem FSM_CREATE_C10 {C : Type} (a : CPtrArg C) :
    (FSM_CREATE a).__context_size = a.ptrSize ∧
    (a.ptrSize ≠ a.pointeeSize → (FSM_CREATE a).__context_size ≠ a.pointeeSize) :=
  ⟨rfl, fun h => h⟩

/-- Witness for C10 at the example program's shape: an 8-byte pointer to the
4-byte `fsm_context_t` of src/examples/basic.c — the stored size is the
pointer's 8, not the struct's 4. -/
theorem FSM_CREATE_C10_witness :
    (FSM_CREATE (CPtrArg.mk (0 : Nat) 8 4)).__context_size = 8 ∧
    (FSM_CREATE (CPtrArg.mk (0 : Nat) 8 4)).__context_size ≠ 4 :=
  ⟨(FSM_CREATE_C10 (CPtrArg.mk (0 : Nat) 8 4)).1,
   (FSM_CREATE_C10 (CPtrArg.mk (0 : Nat) 8 4)).2 (by decide)⟩

/-! ### C8: the end-to-end Idle/Walk scenario -/

/-- C8 fails as stated: per the per-tick algorithm, transition evaluation
follows `on_update` within the same tick, so on tick 10 the Idle update
raises the counter to 10 and the Idle → Walk guard (counter ≥ 10) already
holds — the transition fires on tick 10, not 11, and ticking 10 times does
not keep the state Idle. -/
theorem example_run_C8_counterexample :
    fsm_current_state (runN 10 exampleFsm) = some "Walk" ∧
    fsm_current_state (runN 10 exampleFsm) ≠ some "Idle" ∧
    fsm_current_state (runN 9 exampleFsm) = some "Idle" := by
  decide

/-- C8 amended: in the Idle/Walk scenario, ticking 9 times keeps the state
Idle with the counter reaching 9; the 10th update raises the counter to 10
and the Idle → Walk transition fires on that same tick 10 (transitions are
evaluated right after the update that first satisfies the guard), so after
10 ticks the state is Walk and the counter is 10. -/
theorem example_run_C8 :
    (∀ n, n ≤ 9 → fsm_current_state (runN n exampleFsm) = some "Idle") ∧
    (runN 9 exampleFsm).context = 9 ∧
    (runN 10 exampleFsm).context = 10 ∧
    fsm_current_state (runN 10 exampleFsm) = some "Walk" := by
  decide

/-- Witness for C8 at concrete tick counts: applying the scenario theorem at
tick 9. -/
theorem example_run_C8_witness :
    fsm_current_state (runN 9 exampleFsm) = some "Idle" :=
  example_run_C8.1 9 (by decide)

/-- Witness for C5 at a concrete engine and tick count: three runs after
stopping `w1` change nothing and invoke nothing. -/
theorem fsm_stop_C5_witness :
    runTraceN 3 (fsm_stop w1) = (fsm_stop w1, []) ∧
    (fsm_stop w1).__current_state_idx = w1.__current_state_idx :=
  ⟨(fsm_stop_C5 w1 3).1, (fsm_stop_C5 w1 3).2.1⟩
